import Mathlib

/-!
Verification of the clinic-management core of the Vapi medical-assistant
backend (`clinic_manager.py`).  The Python source is shallowly embedded:
Python strings become `String` (with character-list reasoning via `.data`),
instants become integers (minutes for the availability scanner, seconds for
the calendar-event model), the external Google Sheets registry becomes a
`List Patient`, and the external Google Calendar store becomes a
`List CalendarEvent` together with a busy-slot oracle for range queries.
External library functions (`datetime.fromisoformat`, timezone conversion)
are parameters of the embedding, quantified over in the theorems.
-/

/-- Character-level digit filter: models Python `re.sub(r"\D", "", s)`,
which keeps exactly the digit characters of `s` in order. -/
def digitsOf (s : String) : List Char :=
  s.data.filter (fun c => c.isDigit)

/-- Embeds `ClinicManager._normalize_mobile` (clinic_manager.py lines 46-52).
`if not mobile_number: return ""`; then `cleaned = re.sub(r"\D", "", ...)`;
`if cleaned.startswith("04") and len(cleaned) == 10: return "61" + cleaned[1:]`;
`if cleaned.startswith("4") and len(cleaned) == 9: return "61" + cleaned`;
otherwise `return cleaned`.  Python string operations are rendered on the
character list: `startswith("04")` is `take 2 = ['0', '4']`, `"61" + cleaned[1:]`
is `'6' :: '1' :: cleaned.drop 1`. -/
def _normalize_mobile (mobile_number : String) : String :=
  if mobile_number = "" then ""
  else
    let cleaned := mobile_number.data.filter (fun c => c.isDigit)
    if cleaned.take 2 = ['0', '4'] ∧ cleaned.length = 10 then
      String.mk ('6' :: '1' :: cleaned.drop 1)
    else if cleaned.take 1 = ['4'] ∧ cleaned.length = 9 then
      String.mk ('6' :: '1' :: cleaned)
    else
      String.mk cleaned

/-- Models the `Z`-suffix rewrite in `_parse_and_localize_time`
(clinic_manager.py line 58): `if s.endswith('Z'): s = s[:-1] + '+00:00'`.
`endswith('Z')` is `data.getLast? = some 'Z'` and `s[:-1]` is `data.dropLast`. -/
def preprocessZ (s : String) : String :=
  if s.data.getLast? = some 'Z' then String.mk s.data.dropLast ++ "+00:00" else s

/-- Embeds `ClinicManager._parse_and_localize_time` (clinic_manager.py lines
54-63).  `fromiso` is the external `datetime.fromisoformat`, abstracted as a
partial parse returning the naive wall-clock value in minutes together with
the explicit UTC offset in minutes when the string carries one (`none` result
models a raised `ValueError`).  `toLocal` is the external
`astimezone(clinic_tz)` conversion taking a UTC instant in minutes to the
clinic-local wall clock; a naive value is localized (`clinic_tz.localize`),
i.e. its wall clock is kept unchanged.  `now` is `datetime.now(clinic_tz)` in
clinic-local minutes.  Empty input raises (`Except.error`, line 56); a parse
failure is caught and replaced by the fallback `now + timedelta(hours=1)`
(lines 61-63). -/
def parse_and_localize_time (fromiso : String → Option (Int × Option Int))
    (now : Int) (toLocal : Int → Int) (iso_datetime_str : String) :
    Except String Int :=
  if iso_datetime_str = "" then
    Except.error "dateTime parameter cannot be null."
  else
    match fromiso (preprocessZ iso_datetime_str) with
    | some (wall, some off) => Except.ok (toLocal (wall - off))
    | some (wall, none) => Except.ok wall
    | none => Except.ok (now + 60)

example : _normalize_mobile "0414 364 374" = "61414364374" := by decide
example : _normalize_mobile "414-364-374" = "61414364374" := by decide
example : _normalize_mobile "0298765432" = "0298765432" := by decide
example : parse_and_localize_time (fun _ => none) 0 (fun t => t) "junk" = Except.ok 60 := rfl

/-- One row of the patient registry (the Google Sheet): the columns the core
reads.  Further registry columns are passed through opaquely by the source
and play no role in any claim. -/
structure Patient where
  fullName : String
  mobileNumber : String
  dob : String
deriving DecidableEq

/-- Python truthiness of an optional string argument: `None` and `""` are
falsy, every other string is truthy (used by `if mobile_number:` /
`if dob:` in `find_patient`). -/
def truthy : Option String → Bool
  | none => false
  | some s => !(s == "")

/-- Models Python `str.strip()`: removes leading and trailing whitespace
characters, rendered on the character list. -/
def stripChars (s : String) : String :=
  String.mk
    (((s.data.dropWhile Char.isWhitespace).reverse.dropWhile
      Char.isWhitespace).reverse)

/-- Embeds `ClinicManager.find_patient` (clinic_manager.py lines 65-92).
If a truthy mobile number is supplied, scan all records for the first whose
normalized mobile equals the normalized query (lines 71-76); then, if still
unmatched and a truthy DOB is supplied, scan for the first record whose
trimmed DOB string equals the trimmed query (lines 78-83); otherwise `none`
(patient not found, line 86). -/
def find_patient (records : List Patient) (mobile_number : Option String)
    (dob : Option String) : Option Patient :=
  let byMobile :=
    if truthy mobile_number then
      records.find? (fun p =>
        _normalize_mobile p.mobileNumber == _normalize_mobile (mobile_number.getD ""))
    else none
  match byMobile with
  | some p => some p
  | none =>
    if truthy dob then
      records.find? (fun p => stripChars p.dob == stripChars (dob.getD ""))
    else none

/-- Embeds `ClinicManager.register_patient` (clinic_manager.py lines 94-108).
The duplicate check calls `find_patient` with the phone and DOB embedded in
`details` (line 96); on a match it aborts returning `False` without writing,
otherwise it appends one new row built from `details` and returns `True`.
The result pairs the returned status with the registry state afterwards. -/
def register_patient (records : List Patient) (details : Patient) :
    Bool × List Patient :=
  if (find_patient records (some details.mobileNumber) (some details.dob)).isSome then
    (false, records)
  else
    (true, records ++ [details])

/-- One stored calendar event: its store-assigned id, its summary text, and
its normalized start and end instants in seconds. -/
structure CalendarEvent where
  id : Nat
  summary : String
  startTime : Int
  endTime : Int
deriving DecidableEq

/-- The fixed appointment duration, `timedelta(minutes=30)`, in seconds. -/
def appointment_duration_seconds : Int := 1800

/-- Embeds `ClinicManager.schedule_appointment` (clinic_manager.py lines
143-165).  The patient is resolved first (line 146); with no match the
function returns `None` and the calendar is untouched (line 147).  Otherwise
one event is inserted with summary `"Appointment: " ++ fullName` (line 153),
running for the fixed duration from the normalized start instant, and the
start instant is returned.  `newId` stands for the id the external store
assigns to the inserted event. -/
def schedule_appointment (records : List Patient) (events : List CalendarEvent)
    (newId : Nat) (start_time : Int) (mobile_number dob : Option String) :
    Option Int × List CalendarEvent :=
  match find_patient records mobile_number dob with
  | none => (none, events)
  | some patient =>
    let ev : CalendarEvent :=
      ⟨newId, "Appointment: " ++ patient.fullName, start_time,
        start_time + appointment_duration_seconds⟩
    (some start_time, events ++ [ev])

/-- Boolean test that `needle` begins `hay` (character lists). -/
def startsWithList : List Char → List Char → Bool
  | [], _ => true
  | _ :: _, [] => false
  | a :: as, b :: bs => a == b && startsWithList as bs

/-- Boolean substring test: models Python `needle in hay` on strings, as a
scan of every suffix of `hay`. -/
def containsList (needle : List Char) : List Char → Bool
  | [] => startsWithList needle []
  | b :: bs => startsWithList needle (b :: bs) || containsList needle bs

lemma startsWithList_iff (needle : List Char) :
    ∀ hay, startsWithList needle hay = true ↔ needle <+: hay := by
  induction needle with
  | nil =>
    intro hay
    simp [startsWithList]
  | cons a as ih =>
    intro hay
    cases hay with
    | nil => simp [startsWithList]
    | cons b bs =>
      simp [startsWithList, Bool.and_eq_true, ih bs, List.cons_prefix_cons]

lemma containsList_iff (needle : List Char) :
    ∀ hay, containsList needle hay = true ↔ needle <:+: hay := by
  intro hay
  induction hay with
  | nil =>
    simp [containsList, startsWithList_iff]
  | cons b bs ih =>
    rw [List.infix_cons_iff]
    simp [containsList, Bool.or_eq_true, startsWithList_iff, ih]

/-- The name condition of the cancellation match (clinic_manager.py line
187): `patient.get("fullName", "").lower() in event.get("summary", "").lower()`
— the patient's full name appears case-insensitively in the event summary. -/
def nameMatch (patient : Patient) (e : CalendarEvent) : Bool :=
  containsList (patient.fullName.data.map Char.toLower)
    (e.summary.data.map Char.toLower)

/-- Membership of an event in the cancellation search window
(clinic_manager.py lines 176-181): the store's range query with
`timeMin = target - 10 s` and `timeMax = target + 10 s` returns the events
whose interval intersects the window, i.e. `end > timeMin` and
`start < timeMax`. -/
def inCancelWindow (target : Int) (e : CalendarEvent) : Bool :=
  (decide (target - 10 < e.endTime)) && (decide (e.startTime < target + 10))

/-- Embeds `ClinicManager.cancel_appointment` (clinic_manager.py lines
167-196).  The patient is resolved first (line 170; unmatched ⇒ `False`,
nothing deleted).  The store is queried for the ±10-second window around the
normalized target instant (lines 176-181); the candidates are scanned in
order and the first event whose summary contains the patient's full name
case-insensitively AND whose start instant equals the target exactly (line
187) is deleted by id, returning `True`; with no such candidate the function
returns `False` and deletes nothing (line 193).  The result pairs the
returned status with the calendar state afterwards. -/
def cancel_appointment (records : List Patient) (events : List CalendarEvent)
    (target : Int) (mobile_number dob : Option String) :
    Bool × List CalendarEvent :=
  match find_patient records mobile_number dob with
  | none => (false, events)
  | some patient =>
    let candidates := events.filter (fun e => inCancelWindow target e)
    match candidates.find? (fun e => nameMatch patient e && e.startTime == target) with
    | none => (false, events)
    | some e => (true, events.filter (fun ev => !(ev.id == e.id)))

/-- Result of `check_availability`, one constructor per distinct return
string of clinic_manager.py lines 110-141: `"Outside clinic hours (9AM-5PM)"`,
`"AVAILABLE"`, `"Suggestions: ..."` (the source formats the collected slot
starts with `strftime` and joins them; the model keeps the slot starts
themselves, in clinic-local minutes), and
`"No other available slots found today."`. -/
inductive AvailResult where
  | outsideHours : AvailResult
  | available : AvailResult
  | suggestions : List Nat → AvailResult
  | noSlots : AvailResult
deriving DecidableEq

/-- Clinic opening hour (clinic_manager.py line 22). -/
def clinic_open_hour : Nat := 9

/-- Clinic closing hour (clinic_manager.py line 23). -/
def clinic_close_hour : Nat := 17

/-- The fixed appointment duration in minutes (clinic_manager.py line 20). -/
def appointment_duration : Nat := 30

/-- Embeds the suggestion loop of `check_availability` (clinic_manager.py
lines 123-136): `while len(suggestions) < 3 and current_time < end_of_day:`
advance `current_time` by one duration, break once `current_time >=
end_of_day`, query the calendar for the new slot, and collect the slot when
free.  `busy t` is the external store's answer to the range query for
`[t, t + duration)` (`True` iff some event overlaps).  Times are clinic-local
minutes since midnight of the requested day; `end_of_day` is the close time
`close_hour * 60`.  The loop advances by a fixed positive step and stops at
`end_of_day`, so a structural `fuel` counter at least `end_of_day` bounds its
iterations; the second component counts the calendar queries issued. -/
def scanLoop (busy : Nat → Bool) (end_of_day : Nat) :
    Nat → Nat → Nat → List Nat × Nat
  | 0, _, _ => ([], 0)
  | fuel + 1, current_time, need =>
    if need = 0 then ([], 0)
    else
      let next := current_time + appointment_duration
      if end_of_day ≤ next then ([], 0)
      else if busy next then
        let r := scanLoop busy end_of_day fuel next need
        (r.1, r.2 + 1)
      else
        let r := scanLoop busy end_of_day fuel next (need - 1)
        (next :: r.1, r.2 + 1)

/-- Embeds `ClinicManager.check_availability` (clinic_manager.py lines
110-141) after time normalization, on clinic-local minutes since midnight.
Out-of-hours requests return immediately (lines 114-115) with no calendar
query; otherwise the requested slot is queried once (lines 117-121), and, if
busy, the forward scan collects up to three free slots before close, with the
no-suggestions case answered distinctly (line 138).  The second component
counts the calendar-store queries issued. -/
def check_availability (busy : Nat → Bool) (requested_time : Nat) :
    AvailResult × Nat :=
  if ¬(clinic_open_hour ≤ requested_time / 60 ∧
      requested_time / 60 < clinic_close_hour) then
    (AvailResult.outsideHours, 0)
  else if busy requested_time = false then
    (AvailResult.available, 1)
  else
    let end_of_day := clinic_close_hour * 60
    let r := scanLoop busy end_of_day end_of_day requested_time 3
    (if r.1 = [] then AvailResult.noSlots else AvailResult.suggestions r.1,
      r.2 + 1)

example :
    check_availability (fun t => t == 600) 600 =
      (AvailResult.suggestions [630, 660, 690], 4) := by decide
example :
    check_availability (fun _ => true) 600 = (AvailResult.noSlots, 14) := by decide
example : check_availability (fun _ => true) 420 = (AvailResult.outsideHours, 0) := by decide
example :
    cancel_appointment [⟨"John Smith", "0414364374", "1990-01-01"⟩]
      [⟨1, "Appointment: John Smith", 1000, 2800⟩] 1005 (some "0414364374") none =
      (false, [⟨1, "Appointment: John Smith", 1000, 2800⟩]) := by decide
example :
    cancel_appointment [⟨"John Smith", "0414364374", "1990-01-01"⟩]
      [⟨1, "Appointment: John Smith", 1000, 2800⟩] 1000 (some "0414364374") none =
      (true, []) := by decide

/-- The branch structure of `_normalize_mobile` applied to an already
extracted digit list (the function's body after the emptiness guard). -/
def normalizeDigits (cleaned : List Char) : String :=
  if cleaned.take 2 = ['0', '4'] ∧ cleaned.length = 10 then
    String.mk ('6' :: '1' :: cleaned.drop 1)
  else if cleaned.take 1 = ['4'] ∧ cleaned.length = 9 then
    String.mk ('6' :: '1' :: cleaned)
  else
    String.mk cleaned

lemma normalize_mobile_eq (s : String) :
    _normalize_mobile s = normalizeDigits (digitsOf s) := by
  by_cases h : s = ""
  · subst h; decide
  · simp [_normalize_mobile, normalizeDigits, digitsOf, h]

lemma take_two_decomp (l : List Char) (a b : Char) (h : l.take 2 = [a, b]) :
    l = a :: b :: l.drop 2 := by
  conv_lhs => rw [← List.take_append_drop 2 l]
  rw [h]
  rfl

lemma take_one_decomp (l : List Char) (a : Char) (h : l.take 1 = [a]) :
    l = a :: l.drop 1 := by
  conv_lhs => rw [← List.take_append_drop 1 l]
  rw [h]
  rfl

lemma normalizeDigits_04 (rest : List Char) (h : rest.length = 8) :
    normalizeDigits ('0' :: '4' :: rest) = String.mk ('6' :: '1' :: '4' :: rest) := by
  unfold normalizeDigits
  rw [if_pos ⟨rfl, by simp [h]⟩]
  rfl

lemma normalizeDigits_4 (rest : List Char) (h : rest.length = 8) :
    normalizeDigits ('4' :: rest) = String.mk ('6' :: '1' :: '4' :: rest) := by
  unfold normalizeDigits
  rw [if_neg (by rintro ⟨-, h2⟩; simp [h] at h2), if_pos ⟨rfl, by simp [h]⟩]

lemma normalizeDigits_61 (rest : List Char) (h : rest.length = 8) :
    normalizeDigits ('6' :: '1' :: '4' :: rest) = String.mk ('6' :: '1' :: '4' :: rest) := by
  unfold normalizeDigits
  rw [if_neg (by rintro ⟨h1, -⟩; exact absurd (List.head_eq_of_cons_eq h1) (by decide)),
    if_neg (by rintro ⟨-, h2⟩; simp [h] at h2)]

lemma normalizeDigits_cases (l : List Char) :
    normalizeDigits l = String.mk l ∨
    (∃ rest, l = '0' :: '4' :: rest ∧ rest.length = 8 ∧
      normalizeDigits l = String.mk ('6' :: '1' :: '4' :: rest)) ∨
    (∃ rest, l = '4' :: rest ∧ rest.length = 8 ∧
      normalizeDigits l = String.mk ('6' :: '1' :: '4' :: rest)) := by
  by_cases hA : l.take 2 = ['0', '4'] ∧ l.length = 10
  · obtain ⟨rest, hl⟩ : ∃ rest, l = '0' :: '4' :: rest :=
      ⟨l.drop 2, take_two_decomp l '0' '4' hA.1⟩
    subst hl
    have h8 : rest.length = 8 := by have := hA.2; simp at this; omega
    exact Or.inr (Or.inl ⟨rest, rfl, h8, normalizeDigits_04 rest h8⟩)
  · by_cases hB : l.take 1 = ['4'] ∧ l.length = 9
    · obtain ⟨rest, hl⟩ : ∃ rest, l = '4' :: rest :=
        ⟨l.drop 1, take_one_decomp l '4' hB.1⟩
      subst hl
      have h8 : rest.length = 8 := by have := hB.2; simp at this; omega
      exact Or.inr (Or.inr ⟨rest, rfl, h8, normalizeDigits_4 rest h8⟩)
    · left
      unfold normalizeDigits
      rw [if_neg hA, if_neg hB]

lemma digitsOf_mk_eq (m : List Char) (h : ∀ c ∈ m, c.isDigit = true) :
    digitsOf (String.mk m) = m := by
  unfold digitsOf
  exact List.filter_eq_self.mpr h

lemma mem_digitsOf_isDigit {s : String} {c : Char} (h : c ∈ digitsOf s) :
    c.isDigit = true :=
  List.of_mem_filter h

/-- C4 counterexample: on input `"0412345678"` the normalizer does not return
the digit subsequence unchanged — the leading `0` is replaced by the `61`
country prefix — so "strips all non-digit characters and changes nothing
else" fails. -/
theorem C4_counterexample :
    _normalize_mobile "0412345678" ≠ String.mk (digitsOf "0412345678") := by
  decide

/-- C4 (amended): `_normalize_mobile` is a pure total function of its input
string; empty input yields the empty string; a 10-digit `04…` digit string is
always rewritten to `61` followed by its last nine digits, a 9-digit `4…`
digit string is always rewritten to `61` followed by those nine digits, and
every input matching neither Australian-mobile shape yields exactly the digit
subsequence of its input. -/
theorem C4_amended_normalize_behavior :
    _normalize_mobile "" = "" ∧
    (∀ s rest, digitsOf s = '0' :: '4' :: rest → rest.length = 8 →
      _normalize_mobile s = String.mk ('6' :: '1' :: '4' :: rest)) ∧
    (∀ s rest, digitsOf s = '4' :: rest → rest.length = 8 →
      _normalize_mobile s = String.mk ('6' :: '1' :: '4' :: rest)) ∧
    (∀ s : String,
      ¬((digitsOf s).take 2 = ['0', '4'] ∧ (digitsOf s).length = 10) →
      ¬((digitsOf s).take 1 = ['4'] ∧ (digitsOf s).length = 9) →
      _normalize_mobile s = String.mk (digitsOf s)) := by
  refine ⟨by decide, fun s rest hs h8 => ?_, fun s rest hs h8 => ?_,
    fun s hA hB => ?_⟩
  · rw [normalize_mobile_eq s, hs, normalizeDigits_04 rest h8]
  · rw [normalize_mobile_eq s, hs, normalizeDigits_4 rest h8]
  · rw [normalize_mobile_eq s]
    unfold normalizeDigits
    rw [if_neg hA, if_neg hB]

/-- C4 witness: the amended behavior evaluated concretely — both
Australian-mobile rewrites fire on AU-shaped inputs, and a non-AU landline
with punctuation yields exactly its digit subsequence. -/
theorem C4_amended_witness :
    _normalize_mobile "" = "" ∧
    _normalize_mobile "0498765432" = "61498765432" ∧
    _normalize_mobile "498765432" = "61498765432" ∧
    _normalize_mobile "02-9876-5432" = "0298765432" := by
  have h := C4_amended_normalize_behavior
  exact ⟨h.1,
    (h.2.1 "0498765432" ("98765432".data) (by decide) (by decide)).trans (by decide),
    (h.2.2.1 "498765432" ("98765432".data) (by decide) (by decide)).trans (by decide),
    (h.2.2.2 "02-9876-5432" (by decide) (by decide)).trans (by decide)⟩

/-- C5 counterexample: `"0298765432"` and `"298765432"` differ only in a
leading `"0"`, yet they normalize to different outputs (`"0298765432"` vs
`"298765432"`), because only 10-digit `04…` strings get the leading zero
rewritten — so format-insensitivity with respect to a leading `"0"` fails in
general. -/
theorem C5_counterexample :
    ("0298765432" : String) = "0" ++ "298765432" ∧
    _normalize_mobile "0298765432" ≠ _normalize_mobile "298765432" := by
  exact ⟨by decide, by decide⟩

/-- C5 (amended): `_normalize_mobile` is idempotent on every string; any two
strings with the same digit subsequence (in particular strings differing only
in spacing or dashes) normalize equally; insensitivity to a leading `"0"`
holds for the Australian-mobile shapes — a 10-digit `04…` digit string and
its 9-digit `4…` counterpart normalize equally — and in particular on the
spec's example pair; it does not hold for arbitrary numbers. -/
theorem C5_amended_idempotent_format_insensitive :
    (∀ s, _normalize_mobile (_normalize_mobile s) = _normalize_mobile s) ∧
    (∀ s t, digitsOf s = digitsOf t → _normalize_mobile s = _normalize_mobile t) ∧
    (∀ s t rest, digitsOf s = '0' :: '4' :: rest → rest.length = 8 →
      digitsOf t = '4' :: rest → _normalize_mobile s = _normalize_mobile t) ∧
    _normalize_mobile "0414 364 374" = _normalize_mobile "414-364-374" := by
  refine ⟨fun s => ?_, fun s t h => ?_, fun s t rest hs h8 ht => ?_, by decide⟩
  · rw [normalize_mobile_eq s, normalize_mobile_eq (normalizeDigits (digitsOf s))]
    have hdig : ∀ c ∈ digitsOf s, c.isDigit = true := fun c hc => mem_digitsOf_isDigit hc
    rcases normalizeDigits_cases (digitsOf s) with h | ⟨rest, hrest, h8, h⟩ |
        ⟨rest, hrest, h8, h⟩
    · rw [h, digitsOf_mk_eq _ hdig, h]
    · have hm : ∀ c ∈ ('6' :: '1' :: '4' :: rest), c.isDigit = true := by
        intro c hc
        simp only [List.mem_cons] at hc
        rcases hc with rfl | rfl | rfl | hc
        · decide
        · decide
        · decide
        · exact hdig c (by rw [hrest]; exact List.mem_cons_of_mem _ (List.mem_cons_of_mem _ hc))
      rw [h, digitsOf_mk_eq _ hm, normalizeDigits_61 rest h8]
    · have hm : ∀ c ∈ ('6' :: '1' :: '4' :: rest), c.isDigit = true := by
        intro c hc
        simp only [List.mem_cons] at hc
        rcases hc with rfl | rfl | rfl | hc
        · decide
        · decide
        · decide
        · exact hdig c (by rw [hrest]; exact List.mem_cons_of_mem _ hc)
      rw [h, digitsOf_mk_eq _ hm, normalizeDigits_61 rest h8]
  · rw [normalize_mobile_eq s, normalize_mobile_eq t, h]
  · rw [normalize_mobile_eq s, normalize_mobile_eq t, hs, ht,
      normalizeDigits_04 rest h8, normalizeDigits_4 rest h8]

/-- C5 witness: the amended properties evaluated at concrete inputs —
idempotence at `"0414 364 374"`, digit-subsequence insensitivity at a
spaced/dashed pair, the Australian leading-zero case at
`"0414364374"`/`"414364374"`, and the spec's example equality. -/
theorem C5_amended_witness :
    _normalize_mobile (_normalize_mobile "0414 364 374") =
      _normalize_mobile "0414 364 374" ∧
    _normalize_mobile "04 14" = _normalize_mobile "0-4-1-4" ∧
    _normalize_mobile "0414364374" = _normalize_mobile "414364374" ∧
    _normalize_mobile "0414 364 374" = _normalize_mobile "414-364-374" := by
  have h := C5_amended_idempotent_format_insensitive
  exact ⟨h.1 "0414 364 374", h.2.1 "04 14" "0-4-1-4" (by decide),
    h.2.2.1 "0414364374" "414364374" ("14364374".data) (by decide) (by decide) (by decide),
    h.2.2.2⟩

/-- C10: a 10-digit `04…` digit sequence normalizes to `61` followed by its
last nine digits; a 9-digit `4…` digit sequence normalizes to `61` followed
by those nine digits; consequently an Australian mobile in local `04…` format
and the same number in international `614…`/`+614…` format normalize to the
same canonical string. -/
theorem C10_au_mobile_canonicalization :
    (∀ s rest, digitsOf s = '0' :: '4' :: rest → rest.length = 8 →
      _normalize_mobile s = String.mk ('6' :: '1' :: '4' :: rest)) ∧
    (∀ s rest, digitsOf s = '4' :: rest → rest.length = 8 →
      _normalize_mobile s = String.mk ('6' :: '1' :: '4' :: rest)) ∧
    (∀ s t rest, digitsOf s = '0' :: '4' :: rest → rest.length = 8 →
      digitsOf t = '6' :: '1' :: '4' :: rest →
      _normalize_mobile s = _normalize_mobile t) := by
  refine ⟨fun s rest hs h8 => ?_, fun s rest hs h8 => ?_,
    fun s t rest hs h8 ht => ?_⟩
  · rw [normalize_mobile_eq s, hs, normalizeDigits_04 rest h8]
  · rw [normalize_mobile_eq s, hs, normalizeDigits_4 rest h8]
  · rw [normalize_mobile_eq s, normalize_mobile_eq t, hs, ht,
      normalizeDigits_04 rest h8, normalizeDigits_61 rest h8]

/-- C10 witness: the canonicalization evaluated on the repository's own test
number `0414364374` and its international forms. -/
theorem C10_witness :
    _normalize_mobile "0414364374" = "61414364374" ∧
    _normalize_mobile "414364374" = "61414364374" ∧
    _normalize_mobile "0414364374" = _normalize_mobile "+61414364374" := by
  have h := C10_au_mobile_canonicalization
  exact ⟨(h.1 "0414364374" ("14364374".data) (by decide) (by decide)).trans (by decide),
    (h.2.1 "414364374" ("14364374".data) (by decide) (by decide)).trans (by decide),
    h.2.2 "0414364374" "+61414364374" ("14364374".data) (by decide) (by decide) (by decide)⟩

lemma mk_data_eq (s : String) : String.mk s.data = s := rfl

lemma append_str_ne_empty (base t : String) (h : t.data ≠ []) : base ++ t ≠ "" := by
  intro hc
  apply h
  have hd : base.data ++ t.data = [] := by
    rw [← String.data_append]
    rw [hc]
  exact (List.append_eq_nil.mp hd).2

lemma preprocessZ_concat (base : String) :
    preprocessZ (base ++ "Z") = base ++ "+00:00" := by
  have hdata : (base ++ "Z").data = base.data ++ ['Z'] := rfl
  unfold preprocessZ
  rw [hdata, List.getLast?_concat, if_pos rfl, List.dropLast_concat, mk_data_eq]

lemma preprocessZ_explicit (base : String) :
    preprocessZ (base ++ "+00:00") = base ++ "+00:00" := by
  have hdata : (base ++ "+00:00").data =
      (base.data ++ ['+', '0', '0', ':', '0']) ++ ['0'] := by
    rw [String.data_append, List.append_assoc]
    rfl
  unfold preprocessZ
  rw [hdata, List.getLast?_concat, if_neg (by decide)]

/-- C3: the time normalizer does not honour the fail-with-`InvalidTimestamp`
contract for unparseable non-empty input — whenever the underlying parse
fails (`fromiso` answers `none`), the caught exception is replaced by the
silently substituted default instant `now + 1 hour` (clinic_manager.py lines
61-63) and the call succeeds; only empty/absent input raises (line 56). -/
theorem C3_unparseable_substitutes_default
    (fromiso : String → Option (Int × Option Int)) (now : Int)
    (toLocal : Int → Int) (s : String) (hne : s ≠ "")
    (hfail : fromiso (preprocessZ s) = none) :
    parse_and_localize_time fromiso now toLocal s = Except.ok (now + 60) ∧
    parse_and_localize_time fromiso now toLocal "" =
      Except.error "dateTime parameter cannot be null." := by
  constructor
  · unfold parse_and_localize_time
    rw [if_neg hne, hfail]
  · rfl

/-- C3 witness: with a parser that rejects everything, the unparseable input
`"not-a-date"` yields the substituted default `now + 60` minutes instead of a
failure. -/
theorem C3_witness :
    parse_and_localize_time (fun _ => none) 0 (fun t => t) "not-a-date" =
      Except.ok 60 :=
  (C3_unparseable_substitutes_default (fun _ => none) 0 (fun t => t)
    "not-a-date" (by decide) rfl).1

/-- C6: for every timestamp rendering `base`, any parser `fromiso`, any
timezone conversion `toLocal` and any current time, the `Z`-suffixed form
`base ++ "Z"` and the equivalent explicit-offset form `base ++ "+00:00"`
normalize to the identical clinic-local result: the source rewrites the `Z`
suffix to `+00:00` before parsing, so the two inputs take the same path. -/
theorem C6_z_suffix_normalization_equiv
    (fromiso : String → Option (Int × Option Int)) (now : Int)
    (toLocal : Int → Int) (base : String) :
    parse_and_localize_time fromiso now toLocal (base ++ "Z") =
      parse_and_localize_time fromiso now toLocal (base ++ "+00:00") := by
  unfold parse_and_localize_time
  rw [if_neg (append_str_ne_empty base "Z" (by decide)),
    if_neg (append_str_ne_empty base "+00:00" (by decide)),
    preprocessZ_concat, preprocessZ_explicit]

lemma scanLoop_fuel_stable (busy : Nat → Bool) (eod : Nat) :
    ∀ fuel cur need, eod ≤ cur + appointment_duration * (fuel + 1) →
      scanLoop busy eod (fuel + 1) cur need = scanLoop busy eod fuel cur need := by
  intro fuel
  induction fuel with
  | zero =>
    intro cur need h
    conv_lhs => rw [scanLoop]
    conv_rhs => rw [scanLoop]
    split
    · rfl
    · rw [if_pos (show eod ≤ cur + appointment_duration by
        simp only [appointment_duration] at h ⊢
        omega)]
  | succ fuel ih =>
    intro cur need h
    conv_lhs => rw [scanLoop]
    conv_rhs => rw [scanLoop]
    split
    · rfl
    · simp only []
      split
      · rfl
      · have hrec : eod ≤ (cur + appointment_duration) +
            appointment_duration * (fuel + 1) := by
          simp only [appointment_duration] at h ⊢
          omega
        split
        · rw [ih (cur + appointment_duration) need hrec]
        · rw [ih (cur + appointment_duration) (need - 1) hrec]

lemma scanLoop_fuel_ge (busy : Nat → Bool) (eod : Nat) :
    ∀ extra fuel cur need, eod ≤ cur + appointment_duration * (fuel + 1) →
      scanLoop busy eod (fuel + extra) cur need =
        scanLoop busy eod fuel cur need := by
  intro extra
  induction extra with
  | zero =>
    intro fuel cur need _
    rfl
  | succ e ihe =>
    intro fuel cur need h
    have hstep : fuel + (e + 1) = (fuel + e) + 1 := by omega
    rw [hstep, scanLoop_fuel_stable busy eod (fuel + e) cur need (by
        simp only [appointment_duration] at h ⊢
        omega),
      ihe fuel cur need h]

lemma scanLoop_mem (busy : Nat → Bool) (eod : Nat) :
    ∀ fuel cur need x, x ∈ (scanLoop busy eod fuel cur need).1 →
      cur < x ∧ x < eod ∧ busy x = false ∧
        ∃ k, 1 ≤ k ∧ x = cur + appointment_duration * k := by
  intro fuel
  induction fuel with
  | zero =>
    intro cur need x hx
    simp [scanLoop] at hx
  | succ fuel ih =>
    intro cur need x hx
    simp only [scanLoop] at hx
    split at hx
    · simp at hx
    · split at hx
      · simp at hx
      · rename_i hneed heod
        split at hx
        · rename_i hb
          obtain ⟨h1, h2, h3, k, hk, he⟩ := ih (cur + appointment_duration) need x hx
          refine ⟨?_, h2, h3, k + 1, by omega, ?_⟩
          · simp only [appointment_duration] at h1
            omega
          · simp only [appointment_duration] at he ⊢
            omega
        · rename_i hb
          simp only [List.mem_cons] at hx
          rcases hx with rfl | hx
          · refine ⟨?_, ?_, ?_, 1, le_refl 1, by simp⟩
            · simp only [appointment_duration]
              omega
            · simp only [appointment_duration] at heod ⊢
              omega
            · simp at hb
              exact hb
          · obtain ⟨h1, h2, h3, k, hk, he⟩ := ih (cur + appointment_duration) (need - 1) x hx
            refine ⟨?_, h2, h3, k + 1, by omega, ?_⟩
            · simp only [appointment_duration] at h1
              omega
            · simp only [appointment_duration] at he ⊢
              omega

lemma scanLoop_length (busy : Nat → Bool) (eod : Nat) :
    ∀ fuel cur need, (scanLoop busy eod fuel cur need).1.length ≤ need := by
  intro fuel
  induction fuel with
  | zero =>
    intro cur need
    simp [scanLoop]
  | succ fuel ih =>
    intro cur need
    simp only [scanLoop]
    split
    · simp
    · split
      · simp
      · rename_i hneed heod
        split
        · exact ih (cur + appointment_duration) need
        · have := ih (cur + appointment_duration) (need - 1)
          simp only [List.length_cons]
          omega

lemma scanLoop_pairwise (busy : Nat → Bool) (eod : Nat) :
    ∀ fuel cur need, List.Pairwise (· < ·) (scanLoop busy eod fuel cur need).1 := by
  intro fuel
  induction fuel with
  | zero =>
    intro cur need
    simp [scanLoop]
  | succ fuel ih =>
    intro cur need
    simp only [scanLoop]
    split
    · simp
    · split
      · simp
      · split
        · exact ih (cur + appointment_duration) need
        · refine List.pairwise_cons.mpr ⟨?_, ih (cur + appointment_duration) (need - 1)⟩
          intro y hy
          exact (scanLoop_mem busy eod fuel (cur + appointment_duration) (need - 1) y hy).1

/-- C2: whenever the requested in-hours slot is busy, the availability check
returns either the distinct no-slots answer or a non-empty suggestion list of
at most three slot starts, strictly increasing, each strictly after the
requested slot (so the busy requested slot is never suggested), each strictly
before the clinic close time, each free, and each reached from the requested
start by a whole number of duration increments. -/
theorem C2_availability_scan_bound (busy : Nat → Bool) (requested_time : Nat)
    (hopen : clinic_open_hour ≤ requested_time / 60)
    (hclose : requested_time / 60 < clinic_close_hour)
    (hbusy : busy requested_time = true) :
    (check_availability busy requested_time).1 = AvailResult.noSlots ∨
    (∃ l, (check_availability busy requested_time).1 = AvailResult.suggestions l ∧
      l ≠ [] ∧ l.length ≤ 3 ∧ List.Pairwise (· < ·) l ∧
      ∀ x ∈ l, requested_time < x ∧ x < clinic_close_hour * 60 ∧
        busy x = false ∧
        ∃ k, 1 ≤ k ∧ x = requested_time + appointment_duration * k) := by
  unfold check_availability
  rw [if_neg (not_not_intro ⟨hopen, hclose⟩), if_neg (by simp [hbusy])]
  by_cases he :
      (scanLoop busy (clinic_close_hour * 60) (clinic_close_hour * 60)
        requested_time 3).1 = []
  · left
    simp [he]
  · right
    refine ⟨(scanLoop busy (clinic_close_hour * 60) (clinic_close_hour * 60)
      requested_time 3).1, by simp [he], he,
      scanLoop_length busy (clinic_close_hour * 60) (clinic_close_hour * 60)
        requested_time 3,
      scanLoop_pairwise busy (clinic_close_hour * 60) (clinic_close_hour * 60)
        requested_time 3, ?_⟩
    intro x hx
    exact scanLoop_mem busy (clinic_close_hour * 60) (clinic_close_hour * 60)
      requested_time 3 x hx

/-- C2 witness: with only the 10:00 slot busy, requesting 10:00 (minute 600)
produces the suggestion list [630, 660, 690], which satisfies every bound. -/
theorem C2_availability_witness :
    clinic_open_hour ≤ 600 / 60 ∧ 600 / 60 < clinic_close_hour ∧
    (fun t : Nat => t == 600) 600 = true ∧
    ((check_availability (fun t : Nat => t == 600) 600).1 = AvailResult.noSlots ∨
      (∃ l, (check_availability (fun t : Nat => t == 600) 600).1 =
          AvailResult.suggestions l ∧
        l ≠ [] ∧ l.length ≤ 3 ∧ List.Pairwise (· < ·) l ∧
        ∀ x ∈ l, 600 < x ∧ x < clinic_close_hour * 60 ∧
          (fun t : Nat => t == 600) x = false ∧
          ∃ k, 1 ≤ k ∧ x = 600 + appointment_duration * k)) :=
  ⟨by decide, by decide, by decide,
    C2_availability_scan_bound (fun t : Nat => t == 600) 600 (by decide)
      (by decide) (by decide)⟩

/-- C7: an in-range-parseable request whose clinic-local hour falls outside
the open window is answered `outsideHours` with a calendar-query count of
zero — the store is never consulted. -/
theorem C7_out_of_hours_no_query (busy : Nat → Bool) (requested_time : Nat)
    (h : requested_time / 60 < clinic_open_hour ∨
      clinic_close_hour ≤ requested_time / 60) :
    check_availability busy requested_time = (AvailResult.outsideHours, 0) := by
  have hcond : ¬(clinic_open_hour ≤ requested_time / 60 ∧
      requested_time / 60 < clinic_close_hour) := by
    simp only [clinic_open_hour, clinic_close_hour] at h ⊢
    omega
  unfold check_availability
  rw [if_pos hcond]

/-- C7 witness: hour 7 (minute 420) is out of hours; the answer is
`outsideHours` paired with zero queries, for an arbitrary busy oracle. -/
theorem C7_witness :
    ((420 : Nat) / 60 < clinic_open_hour ∨ clinic_close_hour ≤ 420 / 60) ∧
    check_availability (fun _ => true) 420 = (AvailResult.outsideHours, 0) :=
  ⟨by decide, C7_out_of_hours_no_query (fun _ => true) 420 (by decide)⟩

/-- C8: when patient resolution fails, scheduling returns the not-found
outcome (`none`, the source's `return None` at line 147) and the calendar is
left exactly as it was — no event is inserted for an unverified identity. -/
theorem C8_no_event_for_unverified (records : List Patient)
    (events : List CalendarEvent) (newId : Nat) (start_time : Int)
    (mobile_number dob : Option String)
    (h : find_patient records mobile_number dob = none) :
    schedule_appointment records events newId start_time mobile_number dob =
      (none, events) := by
  unfold schedule_appointment
  rw [h]

/-- C8 witness: against an empty registry no patient resolves, and the
scheduling call leaves the (empty) calendar unchanged and returns `none`. -/
theorem C8_witness :
    find_patient [] (some "0414364374") (some "1990-01-01") = none ∧
    schedule_appointment [] [] 1 600 (some "0414364374") (some "1990-01-01") =
      (none, []) := by
  have h : find_patient [] (some "0414364374") (some "1990-01-01") = none := by
    decide
  exact ⟨h, C8_no_event_for_unverified [] [] 1 600 _ _ h⟩

/-- C9 counterexample: the registration request for Bob has an embedded phone
number (the empty string) whose normalized form equals the normalized phone
of the existing record for Alice (both normalize to `""`), yet registration
succeeds and appends a second row: Python's truthiness test
`if mobile_number:` skips the phone comparison entirely for an empty phone,
so the claim as stated fails. -/
theorem C9_counterexample :
    (∃ r ∈ ([⟨"Alice", "", "2000-01-01"⟩] : List Patient),
      _normalize_mobile r.mobileNumber =
        _normalize_mobile (Patient.mk "Bob" "" "1990-01-01").mobileNumber) ∧
    register_patient [⟨"Alice", "", "2000-01-01"⟩] ⟨"Bob", "", "1990-01-01"⟩ =
      (true, [⟨"Alice", "", "2000-01-01"⟩, ⟨"Bob", "", "1990-01-01"⟩]) := by
  exact ⟨by decide, by decide⟩

/-- C9 (amended): whenever the request's embedded phone number is non-empty
and normalizes to match an existing record, or its DOB is non-empty and
matches an existing record's DOB after trimming, registration is rejected
(`false`) and the registry is returned unchanged — no row is appended. -/
theorem C9_duplicate_guard_amended (records : List Patient) (details : Patient)
    (h : (details.mobileNumber ≠ "" ∧ ∃ r ∈ records,
        _normalize_mobile r.mobileNumber =
          _normalize_mobile details.mobileNumber) ∨
      (details.dob ≠ "" ∧ ∃ r ∈ records,
        stripChars r.dob = stripChars details.dob)) :
    register_patient records details = (false, records) := by
  have hsome : (find_patient records (some details.mobileNumber)
      (some details.dob)).isSome = true := by
    simp only [find_patient]
    rcases h with ⟨hm, r, hr, heq⟩ | ⟨hd, r, hr, heq⟩
    · have hT : truthy (some details.mobileNumber) = true := by
        simp [truthy, hm]
      rw [if_pos hT]
      have hfind : (records.find? (fun p => _normalize_mobile p.mobileNumber ==
          _normalize_mobile ((some details.mobileNumber).getD ""))).isSome := by
        rw [List.find?_isSome]
        exact ⟨r, hr, by simp [heq]⟩
      obtain ⟨p, hp⟩ := Option.isSome_iff_exists.mp hfind
      rw [hp]
      rfl
    · cases hmo : (if truthy (some details.mobileNumber) = true then
          records.find? (fun p => _normalize_mobile p.mobileNumber ==
            _normalize_mobile ((some details.mobileNumber).getD ""))
        else none) with
      | some p => rfl
      | none =>
        show (if truthy (some details.dob) = true then
            records.find? (fun p =>
              stripChars p.dob == stripChars ((some details.dob).getD ""))
          else none).isSome = true
        have hT : truthy (some details.dob) = true := by
          simp [truthy, hd]
        rw [if_pos hT, List.find?_isSome]
        exact ⟨r, hr, by simp [heq]⟩
  unfold register_patient
  rw [if_pos hsome]

/-- C9 witness: the amended guard evaluated concretely — registering a
details row whose differently formatted phone normalizes to match the
existing record is rejected and leaves the registry unchanged. -/
theorem C9_witness :
    register_patient [⟨"Alice", "0414364374", "2000-01-01"⟩]
      ⟨"Al", "414 364 374", "1999-09-09"⟩ =
      (false, [⟨"Alice", "0414364374", "2000-01-01"⟩]) :=
  C9_duplicate_guard_amended _ _
    (Or.inl ⟨by decide,
      ⟨"Alice", "0414364374", "2000-01-01"⟩, by decide, by decide⟩)

lemma find?_first_decomp {α : Type} (p : α → Bool) :
    ∀ (l : List α) (a : α), l.find? p = some a →
      ∃ l₁ l₂, l = l₁ ++ a :: l₂ ∧ p a = true ∧ ∀ x ∈ l₁, p x = false := by
  intro l
  induction l with
  | nil =>
    intro a h
    simp [List.find?] at h
  | cons b bs ih =>
    intro a h
    by_cases hb : p b = true
    · rw [List.find?_cons_of_pos _ hb] at h
      obtain rfl : b = a := Option.some.inj h
      exact ⟨[], bs, rfl, hb, by intro x hx; simp at hx⟩
    · rw [List.find?_cons_of_neg _ hb] at h
      obtain ⟨l₁, l₂, hsplit, hpa, hall⟩ := ih a h
      refine ⟨b :: l₁, l₂, by rw [hsplit]; rfl, hpa, ?_⟩
      intro x hx
      rcases List.mem_cons.mp hx with rfl | hx'
      · exact Bool.not_eq_true _ ▸ Bool.eq_false_iff.mpr hb
      · exact hall x hx'

/-- C1: with the patient resolved and store event ids unique, cancellation
(a) removes an event only when the patient's name matches its summary
case-insensitively and its start instant equals the target exactly, (b)
answers not-found (`false`) and deletes nothing whenever no in-window
candidate satisfies both conditions (in particular when the only event is
merely near the target), and (c) on success deletes exactly the first
candidate, in store order, satisfying both conditions. -/
theorem C1_cancel_exact_match (records : List Patient)
    (events : List CalendarEvent) (target : Int)
    (mobile_number dob : Option String) (patient : Patient)
    (hfind : find_patient records mobile_number dob = some patient)
    (hids : (events.map (fun e => e.id)).Nodup) :
    (∀ e ∈ events,
        e ∉ (cancel_appointment records events target mobile_number dob).2 →
        nameMatch patient e = true ∧ e.startTime = target) ∧
    ((∀ e ∈ events, inCancelWindow target e = true →
        ¬(nameMatch patient e = true ∧ e.startTime = target)) →
      cancel_appointment records events target mobile_number dob =
        (false, events)) ∧
    ((cancel_appointment records events target mobile_number dob).1 = true →
      ∃ e l₁ l₂,
        events.filter (fun ev => inCancelWindow target ev) = l₁ ++ e :: l₂ ∧
        nameMatch patient e = true ∧ e.startTime = target ∧
        (∀ x ∈ l₁, ¬(nameMatch patient x = true ∧ x.startTime = target)) ∧
        (cancel_appointment records events target mobile_number dob).2 =
          events.filter (fun ev => !(ev.id == e.id))) := by
  have hc : cancel_appointment records events target mobile_number dob =
      match (events.filter (fun e => inCancelWindow target e)).find?
          (fun e => nameMatch patient e && e.startTime == target) with
      | none => (false, events)
      | some e => (true, events.filter (fun ev => !(ev.id == e.id))) := by
    unfold cancel_appointment
    rw [hfind]
  cases hm : (events.filter (fun e => inCancelWindow target e)).find?
      (fun e => nameMatch patient e && e.startTime == target) with
  | none =>
    rw [hm] at hc
    refine ⟨?_, fun _ => hc, ?_⟩
    · intro e he hnot
      rw [hc] at hnot
      exact absurd he hnot
    · intro h1
      rw [hc] at h1
      simp at h1
  | some e0 =>
    rw [hm] at hc
    obtain ⟨l₁, l₂, hsplit, hp, hall⟩ := find?_first_decomp _ _ _ hm
    have hp' : nameMatch patient e0 = true ∧ e0.startTime = target := by
      simpa [Bool.and_eq_true] using hp
    have hfm : e0 ∈ events.filter (fun ev => inCancelWindow target ev) := by
      rw [hsplit]
      exact List.mem_append.mpr (Or.inr (List.mem_cons_self e0 l₂))
    have he0mem : e0 ∈ events := List.mem_of_mem_filter hfm
    refine ⟨?_, ?_, ?_⟩
    · intro e he hnot
      rw [hc] at hnot
      have hid : e.id = e0.id := by
        by_contra hne
        exact hnot (List.mem_filter.mpr ⟨he, by simp [hne]⟩)
      have heq : e = e0 :=
        List.inj_on_of_nodup_map hids he he0mem hid
      rw [heq]
      exact hp'
    · intro hnone
      exact absurd hp' (hnone e0 he0mem (List.of_mem_filter hfm))
    · intro _
      refine ⟨e0, l₁, l₂, hsplit, hp'.1, hp'.2, ?_, ?_⟩
      · intro x hx hcontra
        have hfx := hall x hx
        simp [hcontra.1, hcontra.2] at hfx
      · rw [hc]

/-- C1 witness: one event at start 1000 for the resolved patient, a
cancellation request at target 1005 (inside the ±10 s window but not an
exact match): the operation answers `false` (not found) and the calendar is
unchanged. -/
theorem C1_witness :
    find_patient [⟨"John Smith", "0414364374", "1990-01-01"⟩]
        (some "0414364374") none =
      some ⟨"John Smith", "0414364374", "1990-01-01"⟩ ∧
    inCancelWindow 1005 ⟨1, "Appointment: John Smith", 1000, 2800⟩ = true ∧
    cancel_appointment [⟨"John Smith", "0414364374", "1990-01-01"⟩]
        [⟨1, "Appointment: John Smith", 1000, 2800⟩] 1005
        (some "0414364374") none =
      (false, [⟨1, "Appointment: John Smith", 1000, 2800⟩]) := by
  have h := C1_cancel_exact_match
    [⟨"John Smith", "0414364374", "1990-01-01"⟩]
    [⟨1, "Appointment: John Smith", 1000, 2800⟩] 1005
    (some "0414364374") none ⟨"John Smith", "0414364374", "1990-01-01"⟩
    (by decide) (by decide)
  exact ⟨by decide, by decide, h.2.1 (by decide)⟩
